import Mathlib

/-!
Verification of the TTR test-generation pipeline (ATC generator, symbolic
executor, solver bridge, CTC driver) against its natural-language
specification.  The C++ sources under `src/testgen` are shallowly embedded:
the IR (`ast.hh`/`ast.cc`) becomes the inductive types `Expr` and `Stmt`;
the symbolic executor (`see.cc`), the clone visitor (`clonevisitor.cc`),
the ATC generator (`genATC.cc`) and the CTC driver (`tester.cc`) become
executable Lean functions over those types.

Modelling conventions:
* C++ `std::string` names are Lean `String`s; integer literals are `Int`.
* Argument vectors are the mutually inductive `ExprList`/`MapList`, so all
  tree traversals are structural and computable.
* The symbolic sigma (`ValueEnvironment`) is an association list
  `List (String × Expr)` with overwrite-on-update, as in `env.cc`.
* Map-literal keys are always `Var` nodes in the C++ IR
  (`pair<unique_ptr<Var>, unique_ptr<Expr>>`), so a `MapList` entry
  carries the key's variable name and the value expression.
* `SEE::isSymbolic` dereferences sigma bindings and can diverge in C++ on
  cyclic sigmas; its embedding takes a fuel parameter bounding the
  recursion depth.
* Functions that `throw` in C++ return `Except String _`.
* The Z3 solver and the function factory are external components; they
  enter the model as oracle parameters.
-/

mutual
/-- IR expressions, from `ast.hh` / `ast.cc` (`ExprType` variants INPUT,
FUNCCALL, MAP, NUM, SET, STRING, SYMVAR, TUPLE, VAR; the POLYFUNCCALL tag
has no corresponding class and cannot be constructed). -/
inductive Expr : Type where
  | input : Expr
  | funcCall : String → ExprList → Expr
  | map : MapList → Expr
  | num : Int → Expr
  | set : ExprList → Expr
  | str : String → Expr
  | symVar : Nat → Expr
  | tuple : ExprList → Expr
  | var : String → Expr

/-- A `vector<unique_ptr<Expr>>` of the C++ IR. -/
inductive ExprList : Type where
  | nil : ExprList
  | cons : Expr → ExprList → ExprList

/-- A `vector<pair<unique_ptr<Var>, unique_ptr<Expr>>>` of the C++ IR:
each entry is a variable key (its name) and a value expression. -/
inductive MapList : Type where
  | nil : MapList
  | cons : String → Expr → MapList → MapList
end

/-- IR statements, from `ast.cc` (`StmtType` variants ASSIGN, ASSUME,
ASSERT, DECL; a declaration carries the declared name, `Decl::name`). -/
inductive Stmt : Type where
  | assign : Expr → Expr → Stmt
  | assume : Expr → Stmt
  | assert : Expr → Stmt
  | decl : String → Stmt

/-- Build an `ExprList` from a Lean list (notation helper). -/
def ExprList.ofList : List Expr → ExprList
  | [] => .nil
  | e :: rest => .cons e (ExprList.ofList rest)

/-- Flatten an `ExprList` back to a Lean list. -/
def ExprList.toList : ExprList → List Expr
  | .nil => []
  | .cons e rest => e :: rest.toList

/-- The symbolic value environment (`ValueEnvironment` in `env.hh`):
a name-to-expression table; `setValue` overwrites. -/
def Sigma' : Type := List (String × Expr)

/-- `ValueEnvironment::hasValue`/`getValue`: first binding for the name. -/
def lookupSigma : Sigma' → String → Option Expr
  | [], _ => none
  | (k, v) :: rest, n => if k = n then some v else lookupSigma rest n

/-- `ValueEnvironment::setValue`: overwrite an existing binding or add one. -/
def setSigma : Sigma' → String → Expr → Sigma'
  | [], n, v => [(n, v)]
  | (k, w) :: rest, n, v =>
      if k = n then (k, v) :: rest else (k, w) :: setSigma rest n v

/-- The `builtInFunctions` set of `SEE::isAPI` (`see.cc`, lines 243-266),
in source order. -/
def builtInFunctions : List String :=
  ["Add", "Sub", "Mul", "Div",
   "Eq", "Lt", "Gt", "Le", "Ge", "Neq",
   "=", "==", "!=", "<>", "<", ">", "<=", ">=",
   "And", "Or", "Not", "Implies",
   "and", "or", "not", "&&", "||", "!",
   "input",
   "in", "not_in", "member", "not_member", "contains", "not_contains",
   "union", "intersection", "intersect", "difference", "diff", "minus",
   "subset", "is_subset", "add_to_set", "remove_from_set", "is_empty_set",
   "get", "put", "lookup", "select", "store", "update",
   "contains_key", "has_key",
   "concat", "append_list", "length", "at", "nth",
   "prefix", "suffix", "contains_seq",
   "'"]

/-- `SEE::isAPI`: a function call is a real API call iff its name is not a
built-in. -/
def isAPI (name : String) : Bool :=
  !(builtInFunctions.contains name)

/-- The set of function names recognised by the solver bridge
(`Z3InputMaker::visitFuncCall`, `z3solver.cc` lines 216-417): every name
tested by the if/else chain, in source order. -/
def z3RecognizedNames : List String :=
  ["Add", "Sub", "Mul",
   "Eq", "=", "==", "Neq", "!=", "<>",
   "Lt", "<", "Gt", ">", "Le", "<=", "Ge", ">=",
   "And", "and", "&&", "Or", "or", "||", "Not", "not", "!", "Implies",
   "in", "member", "contains", "not_in", "not_member", "not_contains",
   "union", "intersection", "intersect", "difference", "diff", "minus",
   "subset", "is_subset", "add_to_set", "remove_from_set", "is_empty_set",
   "get", "lookup", "select", "put", "store", "update",
   "contains_key", "has_key",
   "concat", "append_list", "length", "at", "nth",
   "prefix", "suffix", "contains_seq",
   "Any", "any"]

mutual
/-- `SEE::isSymbolic` (`see.cc` lines 271-329).  The C++ recursion follows
sigma bindings at `Var` nodes without bound (and can diverge on cyclic
sigmas); the embedding bounds the total recursion depth by a fuel that is
decremented at every recursive step and answers `false` when exhausted. -/
def isSymbolicF : Nat → Sigma' → Expr → Bool
  | 0, _, _ => false
  | fuel + 1, σ, e =>
      match e with
      | .symVar _ => true
      | .funcCall _ args => isSymbolicListF fuel σ args
      | .map kvs => isSymbolicPairsF fuel σ kvs
      | .num _ => false
      | .set es => isSymbolicListF fuel σ es
      | .str _ => false
      | .tuple es => isSymbolicListF fuel σ es
      | .var x =>
          match lookupSigma σ x with
          | some v => isSymbolicF fuel σ v
          | none => false
      | .input => false

def isSymbolicListF : Nat → Sigma' → ExprList → Bool
  | 0, _, _ => false
  | fuel + 1, σ, es =>
      match es with
      | .nil => false
      | .cons e rest => isSymbolicF fuel σ e || isSymbolicListF fuel σ rest

def isSymbolicPairsF : Nat → Sigma' → MapList → Bool
  | 0, _, _ => false
  | fuel + 1, σ, kvs =>
      match kvs with
      | .nil => false
      | .cons _ v rest => isSymbolicF fuel σ v || isSymbolicPairsF fuel σ rest
end

/-- The name of the prime operator, the single-quote character
(written with a hexadecimal escape). -/
def primeName : String := "\x27"

/-- `ExprList` emptiness test (`args.size() == 0`). -/
def ExprList.isNil : ExprList → Bool
  | .nil => true
  | .cons _ _ => false

/-- The loop of `SEE::isReady`/`SEE::executeStmt` over the arguments of a
real API call: `true` iff some argument is symbolic. -/
def anySymbolicArg (fuel : Nat) (σ : Sigma') : ExprList → Bool
  | .nil => false
  | .cons e rest => isSymbolicF fuel σ e || anySymbolicArg fuel σ rest

mutual
/-- `SEE::isReady(Expr&, SymbolTable&)` (`see.cc` lines 157-239); the
symbol-table argument is unused by the C++ body and omitted. -/
def isReadyE (fuel : Nat) (σ : Sigma') : Expr → Bool
  | .funcCall n args =>
      if n = "input" && args.isNil then true
      else if isAPI n then !(anySymbolicArg fuel σ args)
      else true
  | .map kvs => isReadyPairs fuel σ kvs
  | .num _ => true
  | .set es => isReadyList fuel σ es
  | .str _ => true
  | .symVar _ => false
  | .tuple es => isReadyList fuel σ es
  | .var x =>
      match lookupSigma σ x with
      | none => false
      | some v => !(isSymbolicF fuel σ v)
  | .input => false

def isReadyList (fuel : Nat) (σ : Sigma') : ExprList → Bool
  | .nil => true
  | .cons e rest => isReadyE fuel σ e && isReadyList fuel σ rest

/-- `SEE::isReady` on a map literal checks only the value of each entry. -/
def isReadyPairs (fuel : Nat) (σ : Sigma') : MapList → Bool
  | .nil => true
  | .cons _ v rest => isReadyE fuel σ v && isReadyPairs fuel σ rest
end

/-- `SEE::isReady(Stmt&, SymbolTable&)` (`see.cc` lines 113-155). -/
def isReadyS (fuel : Nat) (σ : Sigma') : Stmt → Bool
  | .assign _ r =>
      match r with
      | .funcCall n args =>
          if isAPI n then !(anySymbolicArg fuel σ args) else true
      | _ => isReadyE fuel σ r
  | .assume e => isReadyE fuel σ e
  | .decl _ => true
  | .assert _ => false

mutual
/-- `SEE::evaluateExpr` (`see.cc` lines 488-597), with the process-global
symbolic-variable counter threaded explicitly (it is incremented exactly
when `input()` mints a fresh symbolic variable). -/
def evaluateExpr (σ : Sigma') : Expr → Nat → Expr × Nat
  | .funcCall n args, cnt =>
      if n = "input" && args.isNil then (.symVar cnt, cnt + 1)
      else
        let p := evaluateArgsE σ args cnt
        (.funcCall n p.1, p.2)
  | .num v, cnt => (.num v, cnt)
  | .str s, cnt => (.str s, cnt)
  | .symVar k, cnt => (.symVar k, cnt)
  | .var x, cnt =>
      match lookupSigma σ x with
      | some v => (v, cnt)
      | none => (.var x, cnt)
  | .set es, cnt =>
      let p := evaluateArgsE σ es cnt
      (.set p.1, p.2)
  | .map kvs, cnt =>
      let p := evaluatePairsE σ kvs cnt
      (.map p.1, p.2)
  | .tuple es, cnt =>
      let p := evaluateArgsE σ es cnt
      (.tuple p.1, p.2)
  | .input, cnt => (.input, cnt)

def evaluateArgsE (σ : Sigma') : ExprList → Nat → ExprList × Nat
  | .nil, cnt => (.nil, cnt)
  | .cons e rest, cnt =>
      let p := evaluateExpr σ e cnt
      let q := evaluateArgsE σ rest p.2
      (.cons p.1 q.1, q.2)

/-- Map entries: the key variable is cloned by name, the value evaluated. -/
def evaluatePairsE (σ : Sigma') : MapList → Nat → MapList × Nat
  | .nil, cnt => (.nil, cnt)
  | .cons k v rest, cnt =>
      let p := evaluateExpr σ v cnt
      let q := evaluatePairsE σ rest p.2
      (.cons k p.1 q.1, q.2)
end

/-- The state owned by the symbolic executor: the symbolic sigma, the
process-global symbolic-variable counter, and the path-constraint list. -/
structure SEEState where
  sigma : Sigma'
  counter : Nat
  pc : List Expr

/-- The sigma name an `Assign` binds (`SEE::executeStmt`, `see.cc` lines
377-387): the variable's name, `"_tuple_result"` for a tuple left-hand
side, `"_unknown"` otherwise. -/
def targetName : Expr → String
  | .var x => x
  | .tuple _ => "_tuple_result"
  | _ => "_unknown"

/-- `SEE::executeStmt` (`see.cc` lines 371-486).  The function factory is
an oracle `name → evaluated arguments → returned expression`; an `Assert`
statement matches no branch of the C++ dispatch and leaves the state
unchanged. -/
def executeStmt (factory : String → ExprList → Expr) (st : SEEState) :
    Stmt → SEEState
  | .assign l r =>
      let varName := targetName l
      match r with
      | .funcCall n args =>
          if isAPI n then
            let p := evaluateArgsE st.sigma args st.counter
            { st with sigma := setSigma st.sigma varName (factory n p.1),
                      counter := p.2 }
          else
            let p := evaluateExpr st.sigma (.funcCall n args) st.counter
            { st with sigma := setSigma st.sigma varName p.1, counter := p.2 }
      | _ =>
          let p := evaluateExpr st.sigma r st.counter
          { st with sigma := setSigma st.sigma varName p.1, counter := p.2 }
  | .assume e =>
      let p := evaluateExpr st.sigma e st.counter
      { st with pc := st.pc ++ [p.1], counter := p.2 }
  | .decl n =>
      { st with sigma := setSigma st.sigma n (.symVar st.counter),
                counter := st.counter + 1 }
  | .assert _ => st

/-- The statement loop of `SEE::execute` (`see.cc` lines 341-369):
execute statements in order, stopping at the first non-ready one. -/
def seeLoop (fuel : Nat) (factory : String → ExprList → Expr) :
    List Stmt → SEEState → SEEState
  | [], st => st
  | s :: rest, st =>
      if isReadyS fuel st.sigma s then
        seeLoop fuel factory rest (executeStmt factory st s)
      else st

/-- `SEE::execute`: clear the path-constraint list, then run the loop. -/
def seeExecute (fuel : Nat) (factory : String → ExprList → Expr)
    (prog : List Stmt) (st : SEEState) : SEEState :=
  seeLoop fuel factory prog { st with pc := [] }

/-- `SEE::computePathConstraint` (`see.cc` lines 80-107): the trivial
formula `Eq(1, 1)` for an empty list, the single element as-is, otherwise
the right-associated `And` chain built by the backward loop. -/
def computePathConstraint : List Expr → Expr
  | [] => .funcCall "Eq" (.cons (.num 1) (.cons (.num 1) .nil))
  | [c] => c
  | c :: c2 :: rest =>
      .funcCall "And"
        (.cons c (.cons (computePathConstraint (c2 :: rest)) .nil))

mutual
/-- `CloneVisitor::cloneExpr` (`clonevisitor.cc` lines 41-66 and 108-162):
total over every constructible expression variant. -/
def cloneExpr : Expr → Expr
  | .var x => .var x
  | .funcCall n args => .funcCall n (cloneArgs args)
  | .num v => .num v
  | .str s => .str s
  | .set es => .set (cloneArgs es)
  | .map kvs => .map (clonePairs kvs)
  | .tuple es => .tuple (cloneArgs es)
  | .symVar k => .symVar k
  | .input => .input

def cloneArgs : ExprList → ExprList
  | .nil => .nil
  | .cons e rest => .cons (cloneExpr e) (cloneArgs rest)

/-- `CloneVisitor::cloneMap`: the key is cloned and must be a `Var`. -/
def clonePairs : MapList → MapList
  | .nil => .nil
  | .cons k v rest => .cons k (cloneExpr v) (clonePairs rest)
end

/-- `CloneVisitor::cloneStmt` (`clonevisitor.cc` lines 68-79): only the
ASSIGN and ASSUME variants are handled; ASSERT and DECL statements hit the
default case, which throws. -/
def cloneStmt : Stmt → Except String Stmt
  | .assign l r => .ok (.assign (cloneExpr l) (cloneExpr r))
  | .assume e => .ok (.assume (cloneExpr e))
  | .assert _ => .error "Unknown Stmt type in cloneStmt"
  | .decl _ => .error "Unknown Stmt type in cloneStmt"

/-- Right-hand sides of the form `input()` (a nullary call named `input`). -/
def isInputRHS : Expr → Bool
  | .funcCall n args => n = "input" && args.isNil
  | _ => false

/-- `isInputStmt` (`tester.cc` lines 8-19): an `Assign` whose right-hand
side is the nullary call `input()` (the left-hand side is not inspected). -/
def isInputStmt : Stmt → Bool
  | .assign _ r => isInputRHS r
  | _ => false

/-- `isAbstract` (`tester.cc` lines 22-29). -/
def isAbstract (prog : List Stmt) : Bool :=
  prog.any isInputStmt

/-- The number of input statements of a program. -/
def countInputs (prog : List Stmt) : Nat :=
  (prog.filter isInputStmt).length

/-- The statement loop of `Tester::rewriteATC` (`tester.cc` lines
126-166): replace each input statement by an assignment of the next
concrete value while values remain (the left-hand side must be a `Var`),
and deep-clone every other statement. -/
def rewriteLoop : List Stmt → List Expr → Except String (List Stmt)
  | [], _ => .ok []
  | s :: rest, vals =>
      if isInputStmt s then
        match vals with
        | v :: vs =>
            match s with
            | .assign (.var x) _ =>
                match rewriteLoop rest vs with
                | .error e => .error e
                | .ok r => .ok (.assign (.var x) (cloneExpr v) :: r)
            | _ => .error "Expected Var on left side of input assignment"
        | [] =>
            match cloneStmt s with
            | .error e => .error e
            | .ok c =>
                match rewriteLoop rest [] with
                | .error e => .error e
                | .ok r => .ok (c :: r)
      else
        match cloneStmt s with
        | .error e => .error e
        | .ok c =>
            match rewriteLoop rest vals with
            | .error e => .error e
            | .ok r => .ok (c :: r)

/-- `Tester::rewriteATC` (`tester.cc` lines 119-167): the guard for an
empty program with a non-empty value list, then the loop. -/
def rewriteATC (atc : List Stmt) (vals : List Expr) :
    Except String (List Stmt) :=
  if atc.isEmpty && !vals.isEmpty then
    .error "Empty test case but concrete values provided"
  else rewriteLoop atc vals

/-- `Tester::generateCTC` (`tester.cc` lines 38-101).  The Z3 solver is an
oracle from the conjoined path constraint to `(isSat, integer model values
in model-iteration order)`; `newConcreteVals` keeps only integers of a sat
model.  The second result component counts the iterations (recursion
depth).  The C++ recursion has no fuel; the `Nat` fuel argument bounds the
recursion depth and `none` reports exhaustion, so a theorem providing
sufficient fuel is a termination proof for the C++ loop. -/
def generateCTCF (oracle : Expr → Bool × List Int)
    (factory : String → ExprList → Expr) (symFuel : Nat) :
    Nat → List Stmt → List Expr → SEEState →
    Option (Except String (List Stmt × Nat))
  | 0, _, _, _ => none
  | fuel + 1, atc, vals, st =>
      if isAbstract atc = false then some (.ok (atc, 1))
      else
        match rewriteATC atc vals with
        | .error e => some (.error e)
        | .ok rw =>
            let st2 := seeExecute symFuel factory rw st
            let res := oracle (computePathConstraint st2.pc)
            let newVals : List Expr :=
              if res.1 then res.2.map (fun i => Expr.num i) else []
            if newVals.isEmpty then some (.ok (rw, 1))
            else
              match generateCTCF oracle factory symFuel fuel rw newVals st2 with
              | none => none
              | some (.error e) => some (.error e)
              | some (.ok (p, d)) => some (.ok (p, d + 1))

/-- The iteration bound established for `generateCTCF`: the number of
input statements, plus one for the final concrete iteration, plus one more
when the initial concrete-value list is empty (the first rewrite then
replaces nothing). -/
def ctcBound (atc : List Stmt) (vals : List Expr) : Nat :=
  countInputs atc + (if vals.isEmpty then 2 else 1)

/-- Ordered insertion without duplicates, modelling the iteration order of
the C++ `std::set<string>` used for primed variables. -/
def insertSorted (s : String) : List String → List String
  | [] => [s]
  | k :: rest =>
      if s = k then k :: rest
      else if s < k then s :: k :: rest
      else k :: insertSorted s rest

/-- The deduplication loop of `ATCGenerator::genBlock` step 1 (`genATC.cc`
lines 377-388): keep the first occurrence of each collected name. -/
def dedupNames (seen : List String) : List String → List String
  | [] => []
  | n :: rest =>
      if seen.contains n then dedupNames seen rest
      else n :: dedupNames (n :: seen) rest

mutual
/-- `ATCGenerator::convertExpr` (`genATC.cc` lines 35-111): rename every
variable declared in the block's local symbol table (modelled as the list
of its keys) by appending the suffix; rebuild every other constructor.
The C++ default case returns a null pointer for the `SYMVAR` and `INPUT`
variants, which a parser-produced specification never contains; the
embedding leaves those two variants unchanged. -/
def convertExpr (symTable : List String) (sfx : String) : Expr → Expr
  | .var v =>
      if symTable.contains v then .var (v ++ sfx) else .var v
  | .funcCall n args => .funcCall n (convertArgs symTable sfx args)
  | .num v => .num v
  | .str s => .str s
  | .set es => .set (convertArgs symTable sfx es)
  | .map kvs => .map (convertPairs symTable sfx kvs)
  | .tuple es => .tuple (convertArgs symTable sfx es)
  | .symVar k => .symVar k
  | .input => .input

def convertArgs (symTable : List String) (sfx : String) :
    ExprList → ExprList
  | .nil => .nil
  | .cons e rest =>
      .cons (convertExpr symTable sfx e) (convertArgs symTable sfx rest)

/-- Map keys are `Var` nodes and are renamed like variables. -/
def convertPairs (symTable : List String) (sfx : String) :
    MapList → MapList
  | .nil => .nil
  | .cons k v rest =>
      .cons (if symTable.contains k then k ++ sfx else k)
        (convertExpr symTable sfx v) (convertPairs symTable sfx rest)
end

mutual
/-- `ATCGenerator::extractPrimedVars` (`genATC.cc` lines 117-161): collect
`G` from every prime application `'(G)` whose first argument is a `Var`.
A prime application is not descended into (neither when its first
argument is a variable nor otherwise); `Var`, `Num`, `String`, `SymVar`
and `Input` nodes match no case. -/
def extractPrimedVars : Expr → List String → List String
  | .funcCall n args, acc =>
      if n = primeName && !args.isNil then
        match args with
        | .cons (.var v) _ => insertSorted v acc
        | _ => acc
      else extractPrimedArgs args acc
  | .set es, acc => extractPrimedArgs es acc
  | .map kvs, acc => extractPrimedPairs kvs acc
  | .tuple es, acc => extractPrimedArgs es acc
  | _, acc => acc

def extractPrimedArgs : ExprList → List String → List String
  | .nil, acc => acc
  | .cons e rest, acc => extractPrimedArgs rest (extractPrimedVars e acc)

/-- Map keys are `Var` nodes, on which the extraction does nothing, so
only the values are scanned. -/
def extractPrimedPairs : MapList → List String → List String
  | .nil, acc => acc
  | .cons _ v rest, acc => extractPrimedPairs rest (extractPrimedVars v acc)
end

mutual
/-- `ATCGenerator::removePrimeNotation` (`genATC.cc` lines 168-252):
strip `'(E, …)` to its rewritten first argument; outside a prime body,
rename every variable of `primedVars` to its `_old` snapshot; inside a
prime body leave variables unchanged.  As with `convertExpr`, the C++
returns a null pointer for `SYMVAR`/`INPUT`, left unchanged here. -/
def stripPrimes (primedVars : List String) (insidePrime : Bool) :
    Expr → Expr
  | .var v =>
      if insidePrime then .var v
      else if primedVars.contains v then .var (v ++ "_old")
      else .var v
  | .funcCall n .nil => .funcCall n .nil
  | .funcCall n (.cons a rest) =>
      if n = primeName then stripPrimes primedVars true a
      else
        .funcCall n
          (.cons (stripPrimes primedVars insidePrime a)
            (stripPrimesArgs primedVars insidePrime rest))
  | .num v => .num v
  | .str s => .str s
  | .set es => .set (stripPrimesArgs primedVars insidePrime es)
  | .map kvs => .map (stripPrimesPairs primedVars insidePrime kvs)
  | .tuple es => .tuple (stripPrimesArgs primedVars insidePrime es)
  | .symVar k => .symVar k
  | .input => .input

def stripPrimesArgs (primedVars : List String) (insidePrime : Bool) :
    ExprList → ExprList
  | .nil => .nil
  | .cons e rest =>
      .cons (stripPrimes primedVars insidePrime e)
        (stripPrimesArgs primedVars insidePrime rest)

/-- Map keys are `Var` nodes and are rewritten like variables. -/
def stripPrimesPairs (primedVars : List String) (insidePrime : Bool) :
    MapList → MapList
  | .nil => .nil
  | .cons k v rest =>
      .cons
        (if insidePrime then k
         else if primedVars.contains k then k ++ "_old" else k)
        (stripPrimes primedVars insidePrime v)
        (stripPrimesPairs primedVars insidePrime rest)
end

mutual
/-- `ATCGenerator::collectInputVars` (`genATC.cc` lines 258-318): append
`v ++ suffix` for every variable `v` of the local symbol table, in
traversal order; the arguments of every function call (whatever its name)
are visited. -/
def collectInputVars (symTable : List String) (sfx : String) :
    Expr → List String → List String
  | .var v, acc =>
      if symTable.contains v then acc ++ [v ++ sfx] else acc
  | .funcCall _ args, acc => collectInputArgs symTable sfx args acc
  | .set es, acc => collectInputArgs symTable sfx es acc
  | .map kvs, acc => collectInputPairs symTable sfx kvs acc
  | .tuple es, acc => collectInputArgs symTable sfx es acc
  | _, acc => acc

def collectInputArgs (symTable : List String) (sfx : String) :
    ExprList → List String → List String
  | .nil, acc => acc
  | .cons e rest, acc =>
      collectInputArgs symTable sfx rest (collectInputVars symTable sfx e acc)

/-- Map keys are `Var` nodes and are scanned like variables before the
corresponding value. -/
def collectInputPairs (symTable : List String) (sfx : String) :
    MapList → List String → List String
  | .nil, acc => acc
  | .cons k v rest, acc =>
      collectInputPairs symTable sfx rest
        (collectInputVars symTable sfx v
          (if symTable.contains k then acc ++ [k ++ sfx] else acc))
end

/-- An API block of the specification (`ast.cc`: `API` bundles the
precondition, the `APIcall` with its response expression, the
postcondition response and the block name). -/
structure APIBlock where
  name : String
  pre : Option Expr
  callName : String
  callArgs : ExprList
  callResponse : Option Expr
  post : Option Expr

/-- Step 1 of `ATCGenerator::genBlock` (`genATC.cc` lines 366-388): the
input-variable names of a block, collected from the API-call arguments
and then the precondition, deduplicated keeping the first occurrence. -/
def blockInputNames (b : APIBlock) (symTable : List String)
    (blockIndex : Nat) : List String :=
  let sfx := Nat.repr blockIndex
  let rawArgs := collectInputArgs symTable sfx b.callArgs []
  let rawInput :=
    match b.pre with
    | some p => collectInputVars symTable sfx p rawArgs
    | none => rawArgs
  dedupNames [] rawInput

/-- `ATCGenerator::genBlock` (`genATC.cc` lines 358-465): input
statements for the deduplicated local variables of the call arguments and
the precondition, the precondition assume, the `G_old := G` snapshots for
primed variables, the API-call assignment, and the postcondition assert
with primes stripped. -/
def genBlock (b : APIBlock) (symTable : List String) (blockIndex : Nat) :
    List Stmt :=
  let sfx := Nat.repr blockIndex
  let inputNames := blockInputNames b symTable blockIndex
  let inputStmts :=
    inputNames.map (fun nm => Stmt.assign (.var nm) (.funcCall "input" .nil))
  let assumeStmts :=
    match b.pre with
    | some p => [Stmt.assume (convertExpr symTable sfx p)]
    | none => []
  let primed :=
    match b.post with
    | some p => extractPrimedVars p []
    | none => []
  let snapshots :=
    primed.map (fun g => Stmt.assign (.var (g ++ "_old")) (.var g))
  let lhs :=
    match b.callResponse with
    | some r => convertExpr symTable sfx r
    | none => .var ("_result" ++ sfx)
  let callStmt :=
    Stmt.assign lhs (.funcCall b.callName (convertArgs symTable sfx b.callArgs))
  let assertStmts :=
    match b.post with
    | some p =>
        [Stmt.assert (stripPrimes primed false (convertExpr symTable sfx p))]
    | none => []
  inputStmts ++ assumeStmts ++ snapshots ++ [callStmt] ++ assertStmts

/-- `ATCGenerator::genInit` (`genATC.cc` lines 15-29): one assignment per
initializer, rewritten with an empty local scope and empty suffix. -/
def genInit (inits : List (String × Expr)) : List Stmt :=
  inits.map (fun i => Stmt.assign (.var i.1) (convertExpr [] "" i.2))

/-- `ATCGenerator::generate` (`genATC.cc` lines 471-508): the
initialization statements, then for each scenario name every matching
specification block (by its index, with the parallel child symbol table;
a missing child skips the block). -/
def generate (inits : List (String × Expr)) (blocks : List APIBlock)
    (children : List (List String)) (testString : List String) :
    List Stmt :=
  genInit inits ++
    testString.flatMap (fun bn =>
      (List.range blocks.length).flatMap (fun i =>
        match blocks.get? i with
        | some b =>
            if bn = b.name then
              match children.get? i with
              | some stb => genBlock b stb i
              | none => []
            else []
        | none => []))

/-- The input-variable names introduced by a generated statement list:
the left-hand-side names of its input statements. -/
def inputNamesOf (stmts : List Stmt) : List String :=
  stmts.filterMap (fun s =>
    match s with
    | .assign (.var x) r => if isInputRHS r then some x else none
    | _ => none)

/-- `And(a, b)` (spec side, §4.4 path-constraint conjunction). -/
def mkAnd (a b : Expr) : Expr :=
  .funcCall "And" (.cons a (.cons b .nil))

mutual
/-- Claim-side readiness (spec §4.4): like `isReadyE`, except that a
built-in function call is claimed to be ready iff every component
sub-expression is ready. -/
def readySpecC4 (fuel : Nat) (σ : Sigma') : Expr → Bool
  | .funcCall n args =>
      if n = "input" && args.isNil then true
      else if isAPI n then !(anySymbolicArg fuel σ args)
      else readySpecC4List fuel σ args
  | .map kvs => readySpecC4Pairs fuel σ kvs
  | .num _ => true
  | .set es => readySpecC4List fuel σ es
  | .str _ => true
  | .symVar _ => false
  | .tuple es => readySpecC4List fuel σ es
  | .var x =>
      match lookupSigma σ x with
      | none => false
      | some v => !(isSymbolicF fuel σ v)
  | .input => false

def readySpecC4List (fuel : Nat) (σ : Sigma') : ExprList → Bool
  | .nil => true
  | .cons e rest => readySpecC4 fuel σ e && readySpecC4List fuel σ rest

def readySpecC4Pairs (fuel : Nat) (σ : Sigma') : MapList → Bool
  | .nil => true
  | .cons _ v rest => readySpecC4 fuel σ v && readySpecC4Pairs fuel σ rest
end

mutual
/-- Claim-side primed-variable collection (C7's "every variable `G` that
occurs primed elsewhere in the postcondition"): every `G` with a prime
application `'(G)` anywhere in the expression, including inside the body
of another prime. -/
def occursPrimedAll : Expr → List String → List String
  | .funcCall n args, acc =>
      occursPrimedAllArgs args
        (if n = primeName then
          match args with
          | .cons (.var v) _ => insertSorted v acc
          | _ => acc
        else acc)
  | .set es, acc => occursPrimedAllArgs es acc
  | .map kvs, acc => occursPrimedAllPairs kvs acc
  | .tuple es, acc => occursPrimedAllArgs es acc
  | _, acc => acc

def occursPrimedAllArgs : ExprList → List String → List String
  | .nil, acc => acc
  | .cons e rest, acc => occursPrimedAllArgs rest (occursPrimedAll e acc)

def occursPrimedAllPairs : MapList → List String → List String
  | .nil, acc => acc
  | .cons _ v rest, acc => occursPrimedAllPairs rest (occursPrimedAll v acc)
end

/-- The emitted assert of `genBlock` step 7 for a postcondition `post`:
variable renaming first, then prime stripping, with the snapshot set
computed by `extractPrimedVars` on the unrenamed postcondition. -/
def emitAssert (symTable : List String) (sfx : String) (post : Expr) : Expr :=
  stripPrimes (extractPrimedVars post []) false (convertExpr symTable sfx post)

/-- Claim-side C7 rewrite: variable renaming first, then the same prime
stripping, but with the snapshot set containing every variable that
occurs primed anywhere in the (renamed) postcondition. -/
def claimRewriteC7 (symTable : List String) (sfx : String) (post : Expr) :
    Expr :=
  stripPrimes (occursPrimedAll (convertExpr symTable sfx post) []) false
    (convertExpr symTable sfx post)

mutual
/-- No sub-expression is a function call named `'`. -/
def noPrime : Expr → Bool
  | .funcCall n args => !(n = primeName : Bool) && noPrimeArgs args
  | .set es => noPrimeArgs es
  | .map kvs => noPrimePairs kvs
  | .tuple es => noPrimeArgs es
  | _ => true

def noPrimeArgs : ExprList → Bool
  | .nil => true
  | .cons e rest => noPrime e && noPrimeArgs rest

def noPrimePairs : MapList → Bool
  | .nil => true
  | .cons _ v rest => noPrime v && noPrimePairs rest
end

mutual
/-- Well-formed prime usage over a local scope `st`: every prime
application is `'(v)` for a single variable argument `v` that is not
declared in `st` (the spec applies primes to globals only, which the
variable renaming leaves unchanged). -/
def primesWF (st : List String) : Expr → Bool
  | .funcCall n args =>
      if n = primeName then
        match args with
        | .cons (.var v) .nil => !(st.contains v)
        | _ => false
      else primesWFArgs st args
  | .set es => primesWFArgs st es
  | .map kvs => primesWFPairs st kvs
  | .tuple es => primesWFArgs st es
  | _ => true

def primesWFArgs (st : List String) : ExprList → Bool
  | .nil => true
  | .cons e rest => primesWF st e && primesWFArgs st rest

def primesWFPairs (st : List String) : MapList → Bool
  | .nil => true
  | .cons _ v rest => primesWF st v && primesWFPairs st rest
end

mutual
/-- No `SymVar` or `Input` node occurs: the shape of every
parser-produced specification expression (on `SymVar`/`Input` the C++
`convertExpr` and `removePrimeNotation` return null pointers, which the
embedding does not model). -/
def noSymInput : Expr → Bool
  | .symVar _ => false
  | .input => false
  | .funcCall _ args => noSymInputArgs args
  | .set es => noSymInputArgs es
  | .map kvs => noSymInputPairs kvs
  | .tuple es => noSymInputArgs es
  | _ => true

def noSymInputArgs : ExprList → Bool
  | .nil => true
  | .cons e rest => noSymInput e && noSymInputArgs rest

def noSymInputPairs : MapList → Bool
  | .nil => true
  | .cons _ v rest => noSymInput v && noSymInputPairs rest
end

deriving instance DecidableEq for Expr, ExprList, MapList
deriving instance DecidableEq for Stmt

/-! Concrete fixtures used by counterexamples and witnesses. -/

/-- A function factory oracle returning `0` for every call. -/
def factory0 : String → ExprList → Expr := fun _ _ => .num 0

/-- The initial executor state: empty sigma, counter `0`, no constraints. -/
def st0 : SEEState := ⟨[], 0, []⟩

/-- A solver oracle whose model always contains the single integer `0`. -/
def oracleOne : Expr → Bool × List Int := fun _ => (true, [0])

/-- A solver oracle that always reports unsat. -/
def oracleUnsat : Expr → Bool × List Int := fun _ => (false, [])

/-- The specification block `f1(z)` with precondition `Any(z)`. -/
def anyBlock : APIBlock :=
  { name := "f1"
    pre := some (.funcCall "Any" (.cons (.var "z") .nil))
    callName := "f1"
    callArgs := .cons (.var "z") .nil
    callResponse := none
    post := none }

/-- The ATC statements `genBlock` emits for `anyBlock` at index `0`:
`z0 := input(); assume(Any(z0)); _result0 := f1(z0)`. -/
def anyATC : List Stmt :=
  [.assign (.var "z0") (.funcCall "input" .nil),
   .assume (.funcCall "Any" (.cons (.var "z0") .nil)),
   .assign (.var "_result0") (.funcCall "f1" (.cons (.var "z0") .nil))]

/-- A one-input program whose assume mentions an unassigned global `y`:
`x := input(); assume(Eq(Add(x, y), 5))`. -/
def ctcProg : List Stmt :=
  [.assign (.var "x") (.funcCall "input" .nil),
   .assume (.funcCall "Eq"
     (.cons (.funcCall "Add" (.cons (.var "x") (.cons (.var "y") .nil)))
       (.cons (.num 5) .nil)))]

/-- `ctcProg` with its input statement rewritten to `x := 0`. -/
def ctcProgRewritten : List Stmt :=
  [.assign (.var "x") (.num 0),
   .assume (.funcCall "Eq"
     (.cons (.funcCall "Add" (.cons (.var "x") (.cons (.var "y") .nil)))
       (.cons (.num 5) .nil)))]

/-- A postcondition with a nested prime: `Eq('('(U)), U)`. -/
def nestedPrimePost : Expr :=
  .funcCall "Eq"
    (.cons (.funcCall primeName
        (.cons (.funcCall primeName (.cons (.var "U") .nil)) .nil))
      (.cons (.var "U") .nil))

/-- The postcondition `Eq('(U), union(U, {u -> p}))` (spec scenario C). -/
def signupPost : Expr :=
  .funcCall "Eq"
    (.cons (.funcCall primeName (.cons (.var "U") .nil))
      (.cons (.funcCall "union"
        (.cons (.var "U") (.cons (.map (.cons "u" (.var "p") .nil)) .nil)))
        .nil))

/-- A signup-style block: `signup(u, p)`, precondition `not_in(u, U)`,
postcondition `signupPost`. -/
def signupBlock : APIBlock :=
  { name := "signup"
    pre := some (.funcCall "not_in" (.cons (.var "u") (.cons (.var "U") .nil)))
    callName := "signup"
    callArgs := .cons (.var "u") (.cons (.var "p") .nil)
    callResponse := none
    post := some signupPost }

/-- A block whose only formal parameter is named `x1`. -/
def blockX1 : APIBlock :=
  { name := "g"
    pre := none
    callName := "g"
    callArgs := .cons (.var "x1") .nil
    callResponse := none
    post := none }

/-- A block whose only formal parameter is named `x`. -/
def blockX : APIBlock :=
  { name := "h"
    pre := none
    callName := "h"
    callArgs := .cons (.var "x") .nil
    callResponse := none
    post := none }

/-- Right-hand sides that are real API calls (`assign.right` is a
`FuncCall` whose name is not built in). -/
def isAPICallRHS : Expr → Bool
  | .funcCall n _ => isAPI n
  | _ => false

/-- Left-hand-side discriminator: a `Var` node. -/
def isVarE : Expr → Bool
  | .var _ => true
  | _ => false

/-- Left-hand-side discriminator: a `Tuple` node. -/
def isTupleE : Expr → Bool
  | .tuple _ => true
  | _ => false

/-- A block whose postcondition is `nestedPrimePost`. -/
def nestedPrimeBlock : APIBlock :=
  { name := "f"
    pre := none
    callName := "f"
    callArgs := .nil
    callResponse := none
    post := some nestedPrimePost }

/-! Helper lemmas. -/

mutual
/-- Cloning an expression yields a structurally equal expression. -/
theorem cloneExpr_id : ∀ e : Expr, cloneExpr e = e
  | .input => rfl
  | .funcCall n args => congrArg (Expr.funcCall n) (cloneArgs_id args)
  | .map kvs => congrArg Expr.map (clonePairs_id kvs)
  | .num _ => rfl
  | .set es => congrArg Expr.set (cloneArgs_id es)
  | .str _ => rfl
  | .symVar _ => rfl
  | .tuple es => congrArg Expr.tuple (cloneArgs_id es)
  | .var _ => rfl

theorem cloneArgs_id : ∀ es : ExprList, cloneArgs es = es
  | .nil => rfl
  | .cons e rest => by rw [cloneArgs, cloneExpr_id e, cloneArgs_id rest]

theorem clonePairs_id : ∀ kvs : MapList, clonePairs kvs = kvs
  | .nil => rfl
  | .cons k v rest => by rw [clonePairs, cloneExpr_id v, clonePairs_id rest]
end

/-- A successful statement clone is the statement itself. -/
theorem cloneStmt_ok_eq {s c : Stmt} (h : cloneStmt s = .ok c) : c = s := by
  cases s with
  | assign l r =>
      simp [cloneStmt, cloneExpr_id] at h
      exact h.symm
  | assume e =>
      simp [cloneStmt, cloneExpr_id] at h
      exact h.symm
  | assert e => simp [cloneStmt] at h
  | decl n => simp [cloneStmt] at h

/-- Lookup after `setValue`. -/
theorem lookupSigma_setSigma (σ : Sigma') (n m : String) (v : Expr) :
    lookupSigma (setSigma σ n v) m =
      if n = m then some v else lookupSigma σ m := by
  induction σ with
  | nil =>
      by_cases h : n = m <;> simp [setSigma, lookupSigma, h]
  | cons kv rest ih =>
      obtain ⟨k, w⟩ := kv
      by_cases hk : k = n
      · subst hk
        by_cases h : k = m <;> simp [setSigma, lookupSigma, h]
      · by_cases h : k = m
        · subst h
          have hnm : ¬ n = k := fun hc => hk hc.symm
          simp [setSigma, lookupSigma, hk, hnm]
        · simp [setSigma, lookupSigma, hk, h, ih]

/-- `countInputs` over a cons cell. -/
theorem countInputs_cons (s : Stmt) (l : List Stmt) :
    countInputs (s :: l) =
      (if isInputStmt s = true then 1 else 0) + countInputs l := by
  simp only [countInputs, List.filter_cons]
  split <;> simp +arith

/-- `isAbstract` over a cons cell. -/
theorem isAbstract_cons (s : Stmt) (l : List Stmt) :
    isAbstract (s :: l) = (isInputStmt s || isAbstract l) := by
  simp [isAbstract]

/-- Rewriting with an empty concrete-value list reproduces the program. -/
theorem rewriteLoop_nil_eq :
    ∀ (atc rw : List Stmt), rewriteLoop atc [] = .ok rw → rw = atc := by
  intro atc
  induction atc with
  | nil =>
      intro rw h
      simp [rewriteLoop] at h
      exact h
  | cons s rest ih =>
      intro rw h
      by_cases hs : isInputStmt s = true <;>
      · simp only [rewriteLoop, hs, if_true, if_false, reduceIte] at h
        cases hc : cloneStmt s with
        | error e => rw [hc] at h; simp at h
        | ok c =>
            rw [hc] at h
            cases hr : rewriteLoop rest [] with
            | error e => rw [hr] at h; simp at h
            | ok r =>
                rw [hr] at h
                simp at h
                rw [← h, cloneStmt_ok_eq hc, ih r hr]

/-- An `Assign` is an input statement iff its right-hand side is `input()`. -/
theorem isInputStmt_assign (l r : Expr) :
    isInputStmt (.assign l r) = isInputRHS r := rfl

/-- Rewriting never adds input statements when the substituted concrete
values are not themselves `input()` calls. -/
theorem rewriteLoop_count_le :
    ∀ (atc : List Stmt) (vals : List Expr) (rw : List Stmt),
      (∀ v ∈ vals, isInputRHS v = false) →
      rewriteLoop atc vals = .ok rw → countInputs rw ≤ countInputs atc := by
  intro atc
  induction atc with
  | nil =>
      intro vals rw _ h
      simp [rewriteLoop] at h
      subst h
      exact le_rfl
  | cons s rest ih =>
      intro vals rw hv h
      by_cases hs : isInputStmt s = true
      · cases vals with
        | nil =>
            simp only [rewriteLoop, hs, reduceIte] at h
            cases hc : cloneStmt s with
            | error e => rw [hc] at h; simp at h
            | ok c =>
                rw [hc] at h
                cases hr : rewriteLoop rest [] with
                | error e => rw [hr] at h; simp at h
                | ok r =>
                    rw [hr] at h
                    simp at h
                    rw [← h, cloneStmt_ok_eq hc, countInputs_cons,
                      countInputs_cons]
                    have := ih [] r (by simp) hr
                    omega
        | cons v vs =>
            simp only [rewriteLoop, hs, reduceIte] at h
            cases s with
            | assign l r =>
                cases l with
                | var x =>
                    cases hr : rewriteLoop rest vs with
                    | error e => rw [hr] at h; simp at h
                    | ok r2 =>
                        rw [hr] at h
                        simp at h
                        have hcv : isInputStmt
                            (Stmt.assign (.var x) (cloneExpr v)) = false := by
                          rw [isInputStmt_assign, cloneExpr_id]
                          exact hv v (List.mem_cons_self v vs)
                        rw [← h, countInputs_cons, countInputs_cons, hcv]
                        have := ih vs r2
                          (fun w hw => hv w (List.mem_cons_of_mem v hw)) hr
                        simp
                        omega
                | input => simp at h
                | funcCall n args => simp at h
                | map kvs => simp at h
                | num k => simp at h
                | set es => simp at h
                | str t => simp at h
                | symVar k => simp at h
                | tuple es => simp at h
            | assume e => simp [isInputStmt] at hs
            | assert e => simp [isInputStmt] at hs
            | decl n => simp [isInputStmt] at hs
      · have hs' : isInputStmt s = false := by
          cases hsv : isInputStmt s
          · rfl
          · exact absurd hsv hs
        simp only [rewriteLoop, hs', Bool.false_eq_true, reduceIte] at h
        cases hc : cloneStmt s with
        | error e => rw [hc] at h; simp at h
        | ok c =>
            rw [hc] at h
            cases hr : rewriteLoop rest vals with
            | error e => rw [hr] at h; simp at h
            | ok r =>
                rw [hr] at h
                simp at h
                rw [← h, cloneStmt_ok_eq hc, countInputs_cons,
                  countInputs_cons]
                have := ih vals r hv hr
                omega

/-- Rewriting an abstract program with a non-empty list of non-`input()`
concrete values strictly reduces the number of input statements. -/
theorem rewriteLoop_count_lt :
    ∀ (atc : List Stmt) (v : Expr) (vs : List Expr) (rw : List Stmt),
      (∀ w ∈ v :: vs, isInputRHS w = false) →
      isAbstract atc = true →
      rewriteLoop atc (v :: vs) = .ok rw → countInputs rw < countInputs atc := by
  intro atc
  induction atc with
  | nil =>
      intro v vs rw _ ha _
      simp [isAbstract] at ha
  | cons s rest ih =>
      intro v vs rw hv ha h
      by_cases hs : isInputStmt s = true
      · simp only [rewriteLoop, hs, reduceIte] at h
        cases s with
        | assign l r =>
            cases l with
            | var x =>
                cases hr : rewriteLoop rest vs with
                | error e => rw [hr] at h; simp at h
                | ok r2 =>
                    rw [hr] at h
                    simp at h
                    have hcv : isInputStmt
                        (Stmt.assign (.var x) (cloneExpr v)) = false := by
                      rw [isInputStmt_assign, cloneExpr_id]
                      exact hv v (List.mem_cons_self v vs)
                    rw [← h, countInputs_cons, countInputs_cons, hcv, hs]
                    have := rewriteLoop_count_le rest vs r2
                      (fun w hw => hv w (List.mem_cons_of_mem v hw)) hr
                    simp
                    omega
            | input => simp at h
            | funcCall n args => simp at h
            | map kvs => simp at h
            | num k => simp at h
            | set es => simp at h
            | str t => simp at h
            | symVar k => simp at h
            | tuple es => simp at h
        | assume e => simp [isInputStmt] at hs
        | assert e => simp [isInputStmt] at hs
        | decl n => simp [isInputStmt] at hs
      · have hs' : isInputStmt s = false := by
          cases hsv : isInputStmt s
          · rfl
          · exact absurd hsv hs
        have ha' : isAbstract rest = true := by
          rw [isAbstract_cons, hs'] at ha
          simpa using ha
        simp only [rewriteLoop, hs', Bool.false_eq_true, reduceIte] at h
        cases hc : cloneStmt s with
        | error e => rw [hc] at h; simp at h
        | ok c =>
            rw [hc] at h
            cases hr : rewriteLoop rest (v :: vs) with
            | error e => rw [hr] at h; simp at h
            | ok r =>
                rw [hr] at h
                simp at h
                rw [← h, cloneStmt_ok_eq hc, countInputs_cons,
                  countInputs_cons]
                have := ih v vs r hv ha' hr
                omega

/-- Unfolding equation for one `generateCTCF` iteration. -/
theorem generateCTCF_succ (oracle : Expr → Bool × List Int)
    (factory : String → ExprList → Expr) (symFuel n : Nat)
    (atc : List Stmt) (vals : List Expr) (st : SEEState) :
    generateCTCF oracle factory symFuel (n + 1) atc vals st =
      if isAbstract atc = false then some (.ok (atc, 1))
      else
        match rewriteATC atc vals with
        | .error e => some (.error e)
        | .ok rw =>
            let st2 := seeExecute symFuel factory rw st
            let r := oracle (computePathConstraint st2.pc)
            let newVals : List Expr :=
              if r.1 then r.2.map (fun i => Expr.num i) else []
            if newVals.isEmpty then some (.ok (rw, 1))
            else
              match generateCTCF oracle factory symFuel n rw newVals st2 with
              | none => none
              | some (.error e) => some (.error e)
              | some (.ok (p, d)) => some (.ok (p, d + 1)) := rfl

/-- The iteration bound is at least `1`. -/
theorem ctcBound_pos (atc : List Stmt) (vals : List Expr) :
    1 ≤ ctcBound atc vals := by
  simp only [ctcBound]
  split <;> omega

/-- The C5 driver bound, stated as a helper so that the claim theorem can
restate it verbatim: with fuel at least `ctcBound atc vals`, the driver
returns (so the C++ recursion terminates within that depth), and any
successful result took at most `ctcBound atc vals` iterations. -/
theorem generateCTCF_total_bound :
    ∀ (fuel : Nat) (oracle : Expr → Bool × List Int)
      (factory : String → ExprList → Expr) (symFuel : Nat)
      (atc : List Stmt) (vals : List Expr) (st : SEEState),
      (∀ v ∈ vals, isInputRHS v = false) →
      ctcBound atc vals ≤ fuel →
      ∃ res, generateCTCF oracle factory symFuel fuel atc vals st = some res ∧
        ∀ p d, res = Except.ok (p, d) → d ≤ ctcBound atc vals := by
  intro fuel
  induction fuel with
  | zero =>
      intro oracle factory symFuel atc vals st _ hb
      exact absurd (le_trans (ctcBound_pos atc vals) hb) (by omega)
  | succ n ih =>
      intro oracle factory symFuel atc vals st hv hb
      by_cases ha : isAbstract atc = true
      · have haf : ¬ (isAbstract atc = false) := by simp [ha]
        cases hR : rewriteATC atc vals with
        | error e =>
            refine ⟨.error e, ?_, ?_⟩
            · rw [generateCTCF_succ, if_neg haf, hR]
            · intro p d hpd
              cases hpd
        | ok rw =>
            have hcount : (vals = [] → countInputs rw = countInputs atc) ∧
                (vals ≠ [] → countInputs rw < countInputs atc) := by
              constructor
              · intro hvals
                subst hvals
                rw [rewriteATC] at hR
                simp at hR
                rw [rewriteLoop_nil_eq atc rw hR]
              · intro hvals
                obtain ⟨v, vs, rfl⟩ := List.exists_cons_of_ne_nil hvals
                have hne : atc ≠ [] := by
                  intro hatc
                  subst hatc
                  simp [isAbstract] at ha
                rw [rewriteATC] at hR
                rw [List.isEmpty_eq_false_iff_exists_mem.mpr] at hR
                · simp at hR
                  exact rewriteLoop_count_lt atc v vs rw hv ha hR
                · obtain ⟨s, rest, rfl⟩ := List.exists_cons_of_ne_nil hne
                  exact ⟨s, List.mem_cons_self s rest⟩
            refine ?_
            rw [generateCTCF_succ, if_neg haf, hR]
            simp only
            set st2 := seeExecute symFuel factory rw st with hst2
            set r0 := oracle (computePathConstraint st2.pc) with hr0
            set newVals : List Expr :=
              (if r0.1 then r0.2.map (fun i => Expr.num i) else []) with hnew
            by_cases hN : newVals.isEmpty = true
            · refine ⟨.ok (rw, 1), ?_, ?_⟩
              · rw [if_pos hN]
              · intro p d hpd
                cases hpd
                exact ctcBound_pos atc vals
            · have hNe : newVals ≠ [] := by
                intro hc
                rw [hc] at hN
                exact hN rfl
              have hv2 : ∀ v ∈ newVals, isInputRHS v = false := by
                intro v hvm
                rw [hnew] at hvm
                split at hvm
                · obtain ⟨i, _, rfl⟩ := List.mem_map.mp hvm
                  rfl
                · cases hvm
              have hb2 : ctcBound rw newVals ≤ n := by
                have hbv : ctcBound rw newVals = countInputs rw + 1 := by
                  simp [ctcBound, List.isEmpty_iff, hNe]
                by_cases hvals : vals = []
                · have := hcount.1 hvals
                  rw [hbv, this]
                  have : ctcBound atc vals = countInputs atc + 2 := by
                    simp [ctcBound, hvals]
                  omega
                · have := hcount.2 hvals
                  have : ctcBound atc vals = countInputs atc + 1 := by
                    simp [ctcBound, List.isEmpty_iff, hvals]
                  omega
              obtain ⟨res', hres', hd'⟩ :=
                ih oracle factory symFuel rw newVals st2 hv2 hb2
              rw [if_neg hN, hres']
              cases res' with
              | error e =>
                  refine ⟨.error e, rfl, ?_⟩
                  intro p d hpd
                  cases hpd
              | ok pd =>
                  obtain ⟨p, d⟩ := pd
                  refine ⟨.ok (p, d + 1), rfl, ?_⟩
                  intro p' d' hpd
                  cases hpd
                  have hd := hd' p d rfl
                  have hbv : ctcBound rw newVals = countInputs rw + 1 := by
                    simp [ctcBound, List.isEmpty_iff, hNe]
                  by_cases hvals : vals = []
                  · have h1 := hcount.1 hvals
                    have h2 : ctcBound atc vals = countInputs atc + 2 := by
                      simp [ctcBound, hvals]
                    omega
                  · have h1 := hcount.2 hvals
                    have h2 : ctcBound atc vals = countInputs atc + 1 := by
                      simp [ctcBound, List.isEmpty_iff, hvals]
                    omega
      · have haf : isAbstract atc = false := by
          cases hav : isAbstract atc
          · rfl
          · exact absurd hav ha
        refine ⟨.ok (atc, 1), ?_, ?_⟩
        · rw [generateCTCF_succ, if_pos haf]
        · intro p d hpd
          cases hpd
          exact ctcBound_pos atc vals

/-- `computePathConstraint` of a non-empty list is the right-associated
`And`-fold over the list. -/
theorem computePathConstraint_append :
    ∀ (cs : List Expr) (c : Expr),
      computePathConstraint (cs ++ [c]) = cs.foldr mkAnd c := by
  intro cs
  induction cs with
  | nil => intro c; rfl
  | cons a rest ih =>
      intro c
      cases rest with
      | nil => simp [computePathConstraint, mkAnd]
      | cons b rest2 =>
          have : (a :: b :: rest2) ++ [c] = a :: ((b :: rest2) ++ [c]) := rfl
          rw [this, List.foldr_cons, ← ih c]
          rfl

mutual
/-- Under well-formed prime usage, the source's primed-variable scan
(`extractPrimedVars`) collects the same list as the claim-side scan that
also descends into prime bodies. -/
theorem extract_eq_occursAll (st : List String) :
    ∀ e : Expr, primesWF st e = true →
      ∀ acc, extractPrimedVars e acc = occursPrimedAll e acc
  | .funcCall n args => by
      intro h acc
      by_cases hn : n = primeName
      · simp only [primesWF] at h
        rw [if_pos hn] at h
        cases args with
        | nil => simp at h
        | cons a rest =>
            cases a with
            | var v =>
                cases rest with
                | nil =>
                    simp [extractPrimedVars, occursPrimedAll,
                      occursPrimedAllArgs, ExprList.isNil, hn]
                | cons b rest2 => simp at h
            | input => simp at h
            | funcCall m args2 => simp at h
            | map kvs => simp at h
            | num k => simp at h
            | set es => simp at h
            | str t => simp at h
            | symVar k => simp at h
            | tuple es => simp at h
      · simp only [primesWF] at h
        rw [if_neg hn] at h
        simp only [extractPrimedVars, occursPrimedAll]
        rw [if_neg (by simp [hn]), if_neg hn]
        exact extract_eq_occursAllArgs st args h acc
  | .set es => by
      intro h acc
      simp only [primesWF] at h
      simp only [extractPrimedVars, occursPrimedAll]
      exact extract_eq_occursAllArgs st es h acc
  | .map kvs => by
      intro h acc
      simp only [primesWF] at h
      simp only [extractPrimedVars, occursPrimedAll]
      exact extract_eq_occursAllPairs st kvs h acc
  | .tuple es => by
      intro h acc
      simp only [primesWF] at h
      simp only [extractPrimedVars, occursPrimedAll]
      exact extract_eq_occursAllArgs st es h acc
  | .var _ => by intro _ _; rfl
  | .num _ => by intro _ _; rfl
  | .str _ => by intro _ _; rfl
  | .symVar _ => by intro _ _; rfl
  | .input => by intro _ _; rfl

theorem extract_eq_occursAllArgs (st : List String) :
    ∀ es : ExprList, primesWFArgs st es = true →
      ∀ acc, extractPrimedArgs es acc = occursPrimedAllArgs es acc
  | .nil => by intro _ acc; rfl
  | .cons e rest => by
      intro h acc
      simp only [primesWFArgs, Bool.and_eq_true] at h
      simp only [extractPrimedArgs, occursPrimedAllArgs]
      rw [extract_eq_occursAll st e h.1 acc,
        extract_eq_occursAllArgs st rest h.2]

theorem extract_eq_occursAllPairs (st : List String) :
    ∀ kvs : MapList, primesWFPairs st kvs = true →
      ∀ acc, extractPrimedPairs kvs acc = occursPrimedAllPairs kvs acc
  | .nil => by intro _ acc; rfl
  | .cons k v rest => by
      intro h acc
      simp only [primesWFPairs, Bool.and_eq_true] at h
      simp only [extractPrimedPairs, occursPrimedAllPairs]
      rw [extract_eq_occursAll st v h.1 acc,
        extract_eq_occursAllPairs st rest h.2]
end

mutual
/-- Under well-formed prime usage, variable renaming does not change the
claim-side primed-variable scan (primed variables are never local). -/
theorem occursAll_convert (st : List String) (sfx : String) :
    ∀ e : Expr, primesWF st e = true →
      ∀ acc, occursPrimedAll (convertExpr st sfx e) acc = occursPrimedAll e acc
  | .funcCall n args => by
      intro h acc
      by_cases hn : n = primeName
      · simp only [primesWF] at h
        rw [if_pos hn] at h
        cases args with
        | nil => simp at h
        | cons a rest =>
            cases a with
            | var v =>
                cases rest with
                | nil =>
                    simp only [Bool.not_eq_eq_eq_not, Bool.not_true] at h
                    have hm : ¬ v ∈ st := by simpa using h
                    simp [convertExpr, convertArgs, hm]
                | cons b rest2 => simp at h
            | input => simp at h
            | funcCall m args2 => simp at h
            | map kvs => simp at h
            | num k => simp at h
            | set es => simp at h
            | str t => simp at h
            | symVar k => simp at h
            | tuple es => simp at h
      · simp only [primesWF] at h
        rw [if_neg hn] at h
        simp only [convertExpr, occursPrimedAll]
        rw [if_neg hn, if_neg hn]
        exact occursAll_convertArgs st sfx args h acc
  | .set es => by
      intro h acc
      simp only [primesWF] at h
      simp only [convertExpr, occursPrimedAll]
      exact occursAll_convertArgs st sfx es h acc
  | .map kvs => by
      intro h acc
      simp only [primesWF] at h
      simp only [convertExpr, occursPrimedAll]
      exact occursAll_convertPairs st sfx kvs h acc
  | .tuple es => by
      intro h acc
      simp only [primesWF] at h
      simp only [convertExpr, occursPrimedAll]
      exact occursAll_convertArgs st sfx es h acc
  | .var x => by
      intro _ acc
      simp only [convertExpr]
      split <;> rfl
  | .num _ => by intro _ _; rfl
  | .str _ => by intro _ _; rfl
  | .symVar _ => by intro _ _; rfl
  | .input => by intro _ _; rfl

theorem occursAll_convertArgs (st : List String) (sfx : String) :
    ∀ es : ExprList, primesWFArgs st es = true →
      ∀ acc,
        occursPrimedAllArgs (convertArgs st sfx es) acc
          = occursPrimedAllArgs es acc
  | .nil => by intro _ _; rfl
  | .cons e rest => by
      intro h acc
      simp only [primesWFArgs, Bool.and_eq_true] at h
      simp only [convertArgs, occursPrimedAllArgs]
      rw [occursAll_convert st sfx e h.1 acc,
        occursAll_convertArgs st sfx rest h.2]

theorem occursAll_convertPairs (st : List String) (sfx : String) :
    ∀ kvs : MapList, primesWFPairs st kvs = true →
      ∀ acc,
        occursPrimedAllPairs (convertPairs st sfx kvs) acc
          = occursPrimedAllPairs kvs acc
  | .nil => by intro _ _; rfl
  | .cons k v rest => by
      intro h acc
      simp only [primesWFPairs, Bool.and_eq_true] at h
      simp only [convertPairs, occursPrimedAllPairs]
      rw [occursAll_convert st sfx v h.1 acc,
        occursAll_convertPairs st sfx rest h.2]
end


mutual
/-- Variable renaming preserves well-formed prime usage. -/
theorem primesWF_convert (st : List String) (sfx : String) :
    ∀ e : Expr, primesWF st e = true →
      primesWF st (convertExpr st sfx e) = true
  | .funcCall n args => by
      intro h
      by_cases hn : n = primeName
      · simp only [primesWF] at h
        rw [if_pos hn] at h
        cases args with
        | nil => simp at h
        | cons a rest =>
            cases a with
            | var v =>
                cases rest with
                | nil =>
                    simp only [Bool.not_eq_eq_eq_not, Bool.not_true] at h
                    simp only [convertExpr, convertArgs]
                    rw [if_neg (by simpa using h : ¬ st.contains v = true)]
                    simp only [primesWF]
                    rw [if_pos hn]
                    simpa using h
                | cons b rest2 => simp at h
            | input => simp at h
            | funcCall m args2 => simp at h
            | map kvs => simp at h
            | num k => simp at h
            | set es => simp at h
            | str t => simp at h
            | symVar k => simp at h
            | tuple es => simp at h
      · simp only [primesWF] at h
        rw [if_neg hn] at h
        simp only [convertExpr, primesWF]
        rw [if_neg hn]
        exact primesWF_convertArgs st sfx args h
  | .set es => by
      intro h
      simp only [primesWF] at h
      simp only [convertExpr, primesWF]
      exact primesWF_convertArgs st sfx es h
  | .map kvs => by
      intro h
      simp only [primesWF] at h
      simp only [convertExpr, primesWF]
      exact primesWF_convertPairs st sfx kvs h
  | .tuple es => by
      intro h
      simp only [primesWF] at h
      simp only [convertExpr, primesWF]
      exact primesWF_convertArgs st sfx es h
  | .var x => by
      intro _
      simp only [convertExpr]
      split <;> rfl
  | .num _ => by intro _; rfl
  | .str _ => by intro _; rfl
  | .symVar _ => by intro _; rfl
  | .input => by intro _; rfl

theorem primesWF_convertArgs (st : List String) (sfx : String) :
    ∀ es : ExprList, primesWFArgs st es = true →
      primesWFArgs st (convertArgs st sfx es) = true
  | .nil => by intro _; rfl
  | .cons e rest => by
      intro h
      simp only [primesWFArgs, Bool.and_eq_true] at h
      simp only [convertArgs, primesWFArgs, Bool.and_eq_true]
      exact ⟨primesWF_convert st sfx e h.1, primesWF_convertArgs st sfx rest h.2⟩

theorem primesWF_convertPairs (st : List String) (sfx : String) :
    ∀ kvs : MapList, primesWFPairs st kvs = true →
      primesWFPairs st (convertPairs st sfx kvs) = true
  | .nil => by intro _; rfl
  | .cons k v rest => by
      intro h
      simp only [primesWFPairs, Bool.and_eq_true] at h
      simp only [convertPairs, primesWFPairs, Bool.and_eq_true]
      exact ⟨primesWF_convert st sfx v h.1, primesWF_convertPairs st sfx rest h.2⟩
end

mutual
/-- Stripping primes from a well-formed expression leaves no `'`-named
sub-expression, whatever snapshot set and prime flag are used. -/
theorem noPrime_strip (st : List String) :
    ∀ e : Expr, primesWF st e = true →
      ∀ (P : List String) (b : Bool), noPrime (stripPrimes P b e) = true
  | .funcCall n .nil => by
      intro h P b
      by_cases hn : n = primeName
      · simp only [primesWF] at h
        rw [if_pos hn] at h
        simp at h
      · simp [stripPrimes, noPrime, noPrimeArgs, hn]
  | .funcCall n (.cons a rest) => by
      intro h P b
      by_cases hn : n = primeName
      · simp only [primesWF] at h
        rw [if_pos hn] at h
        cases a with
        | var v =>
            cases rest with
            | nil =>
                simp only [stripPrimes]
                rw [if_pos hn]
                rfl
            | cons b2 rest2 => simp at h
        | input => simp at h
        | funcCall m args2 => simp at h
        | map kvs => simp at h
        | num k => simp at h
        | set es => simp at h
        | str t => simp at h
        | symVar k => simp at h
        | tuple es => simp at h
      · simp only [primesWF] at h
        rw [if_neg hn] at h
        simp only [primesWFArgs, Bool.and_eq_true] at h
        simp only [stripPrimes]
        rw [if_neg hn]
        simp only [noPrime, noPrimeArgs, Bool.and_eq_true]
        refine ⟨by simpa using hn, noPrime_strip st a h.1 P b, ?_⟩
        have := noPrime_stripArgs st rest h.2 P b
        exact this
  | .set es => by
      intro h P b
      simp only [primesWF] at h
      simp only [stripPrimes, noPrime]
      exact noPrime_stripArgs st es h P b
  | .map kvs => by
      intro h P b
      simp only [primesWF] at h
      simp only [stripPrimes, noPrime]
      exact noPrime_stripPairs st kvs h P b
  | .tuple es => by
      intro h P b
      simp only [primesWF] at h
      simp only [stripPrimes, noPrime]
      exact noPrime_stripArgs st es h P b
  | .var x => by
      intro _ P b
      simp only [stripPrimes]
      split <;> first | rfl | (split <;> rfl)
  | .num _ => by intro _ _ _; rfl
  | .str _ => by intro _ _ _; rfl
  | .symVar _ => by intro _ _ _; rfl
  | .input => by intro _ _ _; rfl

theorem noPrime_stripArgs (st : List String) :
    ∀ es : ExprList, primesWFArgs st es = true →
      ∀ (P : List String) (b : Bool),
        noPrimeArgs (stripPrimesArgs P b es) = true
  | .nil => by intro _ _ _; rfl
  | .cons e rest => by
      intro h P b
      simp only [primesWFArgs, Bool.and_eq_true] at h
      simp only [stripPrimesArgs, noPrimeArgs, Bool.and_eq_true]
      exact ⟨noPrime_strip st e h.1 P b, noPrime_stripArgs st rest h.2 P b⟩

theorem noPrime_stripPairs (st : List String) :
    ∀ kvs : MapList, primesWFPairs st kvs = true →
      ∀ (P : List String) (b : Bool),
        noPrimePairs (stripPrimesPairs P b kvs) = true
  | .nil => by intro _ _ _; rfl
  | .cons k v rest => by
      intro h P b
      simp only [primesWFPairs, Bool.and_eq_true] at h
      simp only [stripPrimesPairs, noPrimePairs, Bool.and_eq_true]
      exact ⟨noPrime_strip st v h.1 P b, noPrime_stripPairs st rest h.2 P b⟩
end

mutual
/-- Every name pushed by `collectInputVars` beyond the accumulator is
a local-parameter name followed by the suffix. -/
theorem collect_mem (st : List String) (sfx : String) :
    ∀ (e : Expr) (acc : List String) (nm : String),
      nm ∈ collectInputVars st sfx e acc →
      nm ∈ acc ∨ ∃ p, p ∈ st ∧ nm = p ++ sfx
  | .var v => by
      intro acc nm h
      simp only [collectInputVars] at h
      split at h
      · rcases List.mem_append.mp h with hl | hr
        · exact Or.inl hl
        · refine Or.inr ⟨v, ?_, by simpa using hr⟩
          next hc => simpa using hc
      · exact Or.inl h
  | .funcCall n args => fun acc nm h => collect_memArgs st sfx args acc nm h
  | .set es => fun acc nm h => collect_memArgs st sfx es acc nm h
  | .map kvs => fun acc nm h => collect_memPairs st sfx kvs acc nm h
  | .tuple es => fun acc nm h => collect_memArgs st sfx es acc nm h
  | .num _ => fun _ _ h => Or.inl h
  | .str _ => fun _ _ h => Or.inl h
  | .symVar _ => fun _ _ h => Or.inl h
  | .input => fun _ _ h => Or.inl h

theorem collect_memArgs (st : List String) (sfx : String) :
    ∀ (es : ExprList) (acc : List String) (nm : String),
      nm ∈ collectInputArgs st sfx es acc →
      nm ∈ acc ∨ ∃ p, p ∈ st ∧ nm = p ++ sfx
  | .nil => fun _ _ h => Or.inl h
  | .cons e rest => by
      intro acc nm h
      rcases collect_memArgs st sfx rest _ nm h with hin | hex
      · exact collect_mem st sfx e acc nm hin
      · exact Or.inr hex

theorem collect_memPairs (st : List String) (sfx : String) :
    ∀ (kvs : MapList) (acc : List String) (nm : String),
      nm ∈ collectInputPairs st sfx kvs acc →
      nm ∈ acc ∨ ∃ p, p ∈ st ∧ nm = p ++ sfx
  | .nil => fun _ _ h => Or.inl h
  | .cons k v rest => by
      intro acc nm h
      rcases collect_memPairs st sfx rest _ nm h with hin | hex
      · rcases collect_mem st sfx v _ nm hin with hin2 | hex2
        · revert hin2
          split
          · intro hin2
            rcases List.mem_append.mp hin2 with hl | hr
            · exact Or.inl hl
            · refine Or.inr ⟨k, ?_, by simpa using hr⟩
              next hc => simpa using hc
          · exact fun hin2 => Or.inl hin2
        · exact Or.inr hex2
      · exact Or.inr hex
end

/-- Deduplication only removes elements. -/
theorem dedupNames_mem :
    ∀ (l seen : List String) (nm : String),
      nm ∈ dedupNames seen l → nm ∈ l := by
  intro l
  induction l with
  | nil => intro seen nm h; simp [dedupNames] at h
  | cons n rest ih =>
      intro seen nm h
      simp only [dedupNames] at h
      split at h
      · exact List.mem_cons_of_mem n (ih seen nm h)
      · rcases List.mem_cons.mp h with hl | hr
        · exact hl ▸ List.mem_cons_self n rest
        · exact List.mem_cons_of_mem n (ih (n :: seen) nm hr)

/-- Every input-variable name of a block is a local-parameter name
followed by the block's decimal index. -/
theorem blockInputNames_mem (b : APIBlock) (st : List String) (i : Nat)
    (nm : String) (h : nm ∈ blockInputNames b st i) :
    ∃ p, p ∈ st ∧ nm = p ++ Nat.repr i := by
  simp only [blockInputNames] at h
  have h2 := dedupNames_mem _ _ _ h
  cases hp : b.pre with
  | none =>
      rw [hp] at h2
      rcases collect_memArgs st (Nat.repr i) b.callArgs [] nm h2 with hin | hex
      · cases hin
      · exact hex
  | some p =>
      rw [hp] at h2
      rcases collect_mem st (Nat.repr i) p _ nm h2 with hin | hex
      · rcases collect_memArgs st (Nat.repr i) b.callArgs [] nm hin with hin2 | hex2
        · cases hin2
        · exact hex2
      · exact hex

/-- Single-digit decimal representation. -/
theorem repr_digit_data : ∀ i : Nat, i < 10 →
    (Nat.repr i).data = [Nat.digitChar i] := by
  intro i h
  interval_cases i <;> rfl

/-- Appending distinct single-digit suffixes yields distinct strings. -/
theorem append_repr_ne (p q : String) (i j : Nat) (hi : i < 10)
    (hj : j < 10) (hij : i ≠ j) : p ++ Nat.repr i ≠ q ++ Nat.repr j := by
  intro heq
  have hd := congrArg String.data heq
  rw [String.data_append, String.data_append, repr_digit_data i hi,
    repr_digit_data j hj] at hd
  have hlast := congrArg List.getLast? hd
  simp [List.getLast?_concat] at hlast
  have hdig : ∀ a, a < 10 → ∀ c, c < 10 → a ≠ c →
      Nat.digitChar a ≠ Nat.digitChar c := by decide
  exact hdig i hi j hj hij hlast

/-! Claim theorems. -/

/-- Claim C1, corrected: the symbolic executor classifies a function call
as a real API call iff its name is not in `builtInFunctions`, and that
set contains `input`, `Div` and the prime name `'` — but, contrary to the
claim, it does not contain `Any`, and it is not identical to the set of
names the solver bridge recognizes: the bridge knows `Any` and `any` but
not `Div`, `input` or `'`. -/
theorem claimC1_corrected :
    (∀ n, isAPI n = !(builtInFunctions.contains n)) ∧
    builtInFunctions.contains "input" = true ∧
    builtInFunctions.contains primeName = true ∧
    builtInFunctions.contains "Div" = true ∧
    builtInFunctions.contains "Any" = false ∧
    z3RecognizedNames.contains "Any" = true ∧
    z3RecognizedNames.contains "any" = true ∧
    z3RecognizedNames.contains "Div" = false ∧
    z3RecognizedNames.contains "input" = false ∧
    z3RecognizedNames.contains primeName = false :=
  ⟨fun _ => rfl, by decide, by decide, by decide, by decide, by decide,
   by decide, by decide, by decide, by decide⟩

/-- Claim C1 counterexample: `Any` is absent from the executor's
`BUILTINS` set although the claim asserts it is present, and the two
name sets the claim equates differ at `Any` (and are unequal). -/
theorem claimC1_counterexample :
    builtInFunctions.contains "Any" = false ∧
    z3RecognizedNames.contains "Any" = true ∧
    isAPI "Any" = true ∧
    builtInFunctions ≠ z3RecognizedNames := by decide

/-- Claim C2, code bug, evaluated: for the block `f1(z)` with
precondition `Any(z)`, the collect-input-variables scan does emit the
input statement `z0 := input()` (first conjunct), but because `Any` is
missing from `builtInFunctions` the executor classifies `Any(z0)` as a
real API call with a symbolic argument, judges the assume not ready, and
interrupts: the path constraint stays empty (`Eq(1, 1)`), the
tautological conjunct is never added, and the API call after the assume
is never reached. -/
theorem claimC2_code_bug_eval :
    genBlock anyBlock ["z"] 0 = anyATC ∧
    isAPI "Any" = true ∧
    isReadyS 20 [("z0", Expr.symVar 0)]
      (.assume (.funcCall "Any" (.cons (.var "z0") .nil))) = false ∧
    seeExecute 20 factory0 anyATC st0 = ⟨[("z0", .symVar 0)], 1, []⟩ ∧
    computePathConstraint (seeExecute 20 factory0 anyATC st0).pc
      = .funcCall "Eq" (.cons (.num 1) (.cons (.num 1) .nil)) ∧
    lookupSigma (seeExecute 20 factory0 anyATC st0).sigma "_result0" = none :=
  ⟨by decide, by decide, by decide, rfl, rfl, rfl⟩

/-- Claim C3, code bug, evaluated: expression cloning is total and
produces a structurally equal copy preserving symbolic-variable
identifiers, and `Assign`/`Assume` statements clone successfully; but
`cloneStmt` throws `"Unknown Stmt type in cloneStmt"` on every `Assert`
and `Declaration` statement, so statement cloning is not total — and the
driver's own `rewriteATC` (which clones every non-input statement)
propagates that error on any program containing an assert. -/
theorem claimC3_code_bug_eval :
    (∀ e : Expr, cloneExpr e = e) ∧
    (∀ k : Nat, cloneExpr (.symVar k) = .symVar k) ∧
    (∀ l r : Expr, cloneStmt (.assign l r) = .ok (.assign l r)) ∧
    (∀ e : Expr, cloneStmt (.assume e) = .ok (.assume e)) ∧
    (∀ e : Expr, cloneStmt (.assert e)
      = .error "Unknown Stmt type in cloneStmt") ∧
    (∀ n : String, cloneStmt (.decl n)
      = .error "Unknown Stmt type in cloneStmt") ∧
    rewriteATC [.assert (.funcCall "Eq" (.cons (.num 1) (.cons (.num 1) .nil)))] []
      = .error "Unknown Stmt type in cloneStmt" :=
  ⟨cloneExpr_id, fun _ => rfl,
   fun l r => by simp [cloneStmt, cloneExpr_id],
   fun e => by simp [cloneStmt, cloneExpr_id],
   fun _ => rfl, fun _ => rfl, rfl⟩

/-- Claim C9, confirmed: the path-constraint conjunction yields
`Eq(1, 1)` on an empty list, the constraint itself on a singleton, and
otherwise the right-associated `And` chain over the constraints in
order; an executed assume appends its evaluated expression at the end of
the path-constraint list. -/
theorem claimC9_confirmed :
    computePathConstraint []
        = .funcCall "Eq" (.cons (.num 1) (.cons (.num 1) .nil)) ∧
    (∀ c, computePathConstraint [c] = c) ∧
    (∀ c c2 rest, computePathConstraint (c :: c2 :: rest)
        = mkAnd c (computePathConstraint (c2 :: rest))) ∧
    (∀ cs c, computePathConstraint (cs ++ [c]) = cs.foldr mkAnd c) ∧
    (∀ factory st e, (executeStmt factory st (.assume e)).pc
        = st.pc ++ [(evaluateExpr st.sigma e st.counter).1]) :=
  ⟨rfl, fun _ => rfl, fun _ _ _ => rfl, computePathConstraint_append,
   fun _ _ _ => rfl⟩

/-- Claim C4, corrected: expression readiness satisfies the claimed
clauses for variables (bound and non-symbolic), symbolic variables (not
ready), nullary `input()` (ready) and real API calls (all arguments
non-symbolic) — but a built-in function call is always ready without any
check of its components, a set or tuple literal is ready iff every
element is ready, and a map literal checks only its values. -/
theorem claimC4_corrected :
    ∀ (fuel : Nat) (σ : Sigma'),
      (∀ x, isReadyE fuel σ (.var x)
          = match lookupSigma σ x with
            | none => false
            | some v => !(isSymbolicF fuel σ v)) ∧
      (∀ k, isReadyE fuel σ (.symVar k) = false) ∧
      (isReadyE fuel σ (.funcCall "input" .nil) = true) ∧
      (∀ n args, isAPI n = true →
        isReadyE fuel σ (.funcCall n args) = !(anySymbolicArg fuel σ args)) ∧
      (∀ n args, isAPI n = false →
        isReadyE fuel σ (.funcCall n args) = true) ∧
      (∀ es, isReadyE fuel σ (.set es) = isReadyList fuel σ es) ∧
      (∀ es, isReadyE fuel σ (.tuple es) = isReadyList fuel σ es) ∧
      (∀ kvs, isReadyE fuel σ (.map kvs) = isReadyPairs fuel σ kvs) ∧
      (∀ e rest, isReadyList fuel σ (.cons e rest)
          = (isReadyE fuel σ e && isReadyList fuel σ rest)) ∧
      (∀ k v rest, isReadyPairs fuel σ (.cons k v rest)
          = (isReadyE fuel σ v && isReadyPairs fuel σ rest)) := by
  intro fuel σ
  refine ⟨fun _ => rfl, fun _ => rfl, rfl, ?_, ?_, fun _ => rfl, fun _ => rfl,
    fun _ => rfl, fun _ _ => rfl, fun _ _ _ => rfl⟩
  · intro n args h
    have hne : ¬ n = "input" := by
      intro hc
      rw [hc] at h
      exact absurd h (by decide)
    simp [isReadyE, hne, h]
  · intro n args h
    simp only [isReadyE, h]
    split
    · rfl
    · simp [h]

/-- Claim C4 counterexample: the built-in call `Add(x, 1)` with `x`
unbound in sigma is judged ready by the executor although its component
`x` is not ready, refuting the claimed "built-in call ready iff every
component is ready" (the claim-side predicate `readySpecC4` disagrees
with the code at this input). -/
theorem claimC4_counterexample :
    isReadyE 5 [] (.funcCall "Add" (.cons (.var "x") (.cons (.num 1) .nil)))
        = true ∧
    readySpecC4 5 [] (.funcCall "Add" (.cons (.var "x") (.cons (.num 1) .nil)))
        = false ∧
    isReadyE 5 [] (.var "x") = false := by decide

/-- Claim C4 witness: the real-API-call clause of `claimC4_corrected`
instantiated at the call `f(y)` with `y` bound to the number `2`. -/
theorem claimC4_witness :
    isReadyE 5 [("y", Expr.num 2)] (.funcCall "f" (.cons (.var "y") .nil))
      = !(anySymbolicArg 5 [("y", Expr.num 2)] (.cons (.var "y") .nil)) :=
  (claimC4_corrected 5 [("y", Expr.num 2)]).2.2.2.1 "f"
    (.cons (.var "y") .nil) (by decide)

/-- Helper for C5: the strict decrease of `rewriteATC` on an abstract
program with a non-empty list of non-`input()` values, through the
empty-program guard. -/
theorem rewriteATC_count_lt (atc : List Stmt) (v : Expr) (vs : List Expr)
    (rw : List Stmt) (hv : ∀ w ∈ v :: vs, isInputRHS w = false)
    (ha : isAbstract atc = true) (hR : rewriteATC atc (v :: vs) = .ok rw) :
    countInputs rw < countInputs atc := by
  have hne : atc ≠ [] := by
    intro hc
    subst hc
    simp [isAbstract] at ha
  rw [rewriteATC] at hR
  rw [if_neg (by simp [List.isEmpty_iff, hne])] at hR
  exact rewriteLoop_count_lt atc v vs rw hv ha hR

/-- Claim C5, corrected: for every program, concrete-value list (of
proper concrete values, not `input()` markers) and solver/factory
oracles, the driver terminates — fuel `ctcBound` suffices — and the
number of iterations is at most `N + 1` when the initial value list is
non-empty but only `N + 2` in general, where `N` counts the input
statements; every recursive step with a non-empty value list strictly
reduces the input-statement count, while the rewrite of the first
iteration with an empty list leaves the program unchanged. -/
theorem claimC5_corrected :
    (∀ (fuel : Nat) (oracle : Expr → Bool × List Int)
      (factory : String → ExprList → Expr) (symFuel : Nat)
      (atc : List Stmt) (vals : List Expr) (st : SEEState),
      (∀ v ∈ vals, isInputRHS v = false) →
      ctcBound atc vals ≤ fuel →
      ∃ res, generateCTCF oracle factory symFuel fuel atc vals st = some res ∧
        ∀ p d, res = Except.ok (p, d) → d ≤ ctcBound atc vals) ∧
    (∀ (atc : List Stmt) (v : Expr) (vs : List Expr) (rw : List Stmt),
      (∀ w ∈ v :: vs, isInputRHS w = false) →
      isAbstract atc = true →
      rewriteATC atc (v :: vs) = .ok rw →
      countInputs rw < countInputs atc) ∧
    (∀ (atc rw : List Stmt), rewriteATC atc [] = .ok rw → rw = atc) := by
  refine ⟨generateCTCF_total_bound, rewriteATC_count_lt, ?_⟩
  intro atc rw h
  rw [rewriteATC] at h
  simp at h
  exact rewriteLoop_nil_eq atc rw h

/-- Claim C5 counterexample: on the one-input program `ctcProg` with an
empty initial concrete-value list and a sat solver oracle that always
returns one integer, the driver takes `3` iterations, exceeding the
claimed bound `N + 1 = 2`. -/
theorem claimC5_counterexample :
    generateCTCF oracleOne factory0 20 10 ctcProg [] st0
        = some (.ok (ctcProgRewritten, 3)) ∧
    countInputs ctcProg = 1 ∧
    ¬ (3 ≤ countInputs ctcProg + 1) :=
  ⟨rfl, rfl, by decide⟩

/-- Claim C5 witness: the bound of `claimC5_corrected` instantiated on
`ctcProg` with fuel `3 = ctcBound ctcProg []`. -/
theorem claimC5_witness :
    ∃ res, generateCTCF oracleOne factory0 20 3 ctcProg [] st0 = some res ∧
      ∀ p d, res = Except.ok (p, d) → d ≤ ctcBound ctcProg [] :=
  claimC5_corrected.1 3 oracleOne factory0 20 ctcProg [] st0
    (fun v hv => absurd hv (List.not_mem_nil v)) (by decide)

/-- Claim C6, confirmed: when the solver oracle reports unsat for the
path constraint of the iteration, `generateCTC` returns exactly the
program produced by that iteration's rewrite step and performs no
further recursion (one iteration). -/
theorem claimC6_confirmed (oracle : Expr → Bool × List Int)
    (factory : String → ExprList → Expr) (symFuel fuel : Nat)
    (atc : List Stmt) (vals : List Expr) (st : SEEState) (rw : List Stmt)
    (ha : isAbstract atc = true) (hR : rewriteATC atc vals = .ok rw)
    (hU : (oracle (computePathConstraint
      (seeExecute symFuel factory rw st).pc)).1 = false) :
    generateCTCF oracle factory symFuel (fuel + 1) atc vals st
      = some (.ok (rw, 1)) := by
  rw [generateCTCF_succ, if_neg (by simp [ha]), hR]
  simp [hU]

/-- Claim C6 witness: `claimC6_confirmed` instantiated on `ctcProg` with
the always-unsat oracle. -/
theorem claimC6_witness :
    generateCTCF oracleUnsat factory0 20 1 ctcProg [] st0
      = some (.ok (ctcProg, 1)) :=
  claimC6_confirmed oracleUnsat factory0 20 0 ctcProg [] st0 ctcProg
    (by decide) rfl rfl

/-- Claim C7, corrected: provided every prime application in the
postcondition is `'(G)` for a single variable `G` outside the local
scope (the spec's prime notation; nested primes, non-variable prime
bodies and nullary primes are excluded — see the counterexample) and
the postcondition is parser-shaped (no `SymVar`/`Input` nodes), the
assert emitted by `genBlock` equals the postcondition after variable
renaming followed by prime stripping with the claim's snapshot set, and
it contains no sub-expression named `'`. -/
theorem claimC7_corrected (b : APIBlock) (symTable : List String) (i : Nat)
    (p : Expr) (hpost : b.post = some p) (_hsym : noSymInput p = true)
    (hwf : primesWF symTable p = true) :
    ∃ front, genBlock b symTable i
        = front ++ [.assert (claimRewriteC7 symTable (Nat.repr i) p)] ∧
      noPrime (claimRewriteC7 symTable (Nat.repr i) p) = true := by
  have hconv := primesWF_convert symTable (Nat.repr i) p hwf
  have he1 : extractPrimedVars p [] = occursPrimedAll p [] :=
    extract_eq_occursAll symTable p hwf []
  have he2 : occursPrimedAll (convertExpr symTable (Nat.repr i) p) []
      = occursPrimedAll p [] :=
    occursAll_convert symTable (Nat.repr i) p hwf []
  have hemit : emitAssert symTable (Nat.repr i) p
      = claimRewriteC7 symTable (Nat.repr i) p := by
    rw [emitAssert, claimRewriteC7, he1, he2]
  refine ⟨(blockInputNames b symTable i).map
        (fun nm => Stmt.assign (.var nm) (.funcCall "input" .nil))
      ++ (match b.pre with
          | some q => [Stmt.assume (convertExpr symTable (Nat.repr i) q)]
          | none => [])
      ++ (extractPrimedVars p []).map
        (fun g => Stmt.assign (.var (g ++ "_old")) (.var g))
      ++ [Stmt.assign
          (match b.callResponse with
           | some r => convertExpr symTable (Nat.repr i) r
           | none => .var ("_result" ++ Nat.repr i))
          (.funcCall b.callName
            (convertArgs symTable (Nat.repr i) b.callArgs))], ?_, ?_⟩
  · rw [← hemit]
    simp [genBlock, hpost, emitAssert, List.append_assoc]
  · rw [claimRewriteC7]
    exact noPrime_strip symTable _ hconv _ false

/-- Claim C7 counterexample: on the postcondition `Eq('('(U)), U)` the
emitted assert is `Eq(U, U)` — because the source's primed-variable scan
does not descend into prime bodies, `U` is not registered as primed —
whereas the claim's rewrite (`U` occurs primed elsewhere, so the outer
`U` becomes `U_old`) yields `Eq(U, U_old)`; the block's emitted assert
therefore differs from the claim's rewrite. -/
theorem claimC7_counterexample :
    emitAssert [] (Nat.repr 0) nestedPrimePost
        = .funcCall "Eq" (.cons (.var "U") (.cons (.var "U") .nil)) ∧
    claimRewriteC7 [] (Nat.repr 0) nestedPrimePost
        = .funcCall "Eq" (.cons (.var "U") (.cons (.var "U_old") .nil)) ∧
    emitAssert [] (Nat.repr 0) nestedPrimePost
        ≠ claimRewriteC7 [] (Nat.repr 0) nestedPrimePost ∧
    (genBlock nestedPrimeBlock [] 0).getLast?
        = some (.assert (.funcCall "Eq"
            (.cons (.var "U") (.cons (.var "U") .nil)))) := by decide

/-- Claim C7 witness: `claimC7_corrected` instantiated on the
signup block of spec scenario C. -/
theorem claimC7_witness :
    ∃ front, genBlock signupBlock ["u", "p"] 0
        = front ++ [.assert (claimRewriteC7 ["u", "p"] (Nat.repr 0) signupPost)] ∧
      noPrime (claimRewriteC7 ["u", "p"] (Nat.repr 0) signupPost) = true :=
  claimC7_corrected signupBlock ["u", "p"] 0 signupPost rfl (by decide)
    (by decide)

/-- Claim C8, corrected: the input-variable name sets of two emitted
blocks with distinct specification indices are disjoint provided both
indices are single-digit (below ten); in general the concatenation
`name ++ decimal-index` can collide across blocks — see the
counterexample. -/
theorem claimC8_corrected (b1 b2 : APIBlock) (st1 st2 : List String)
    (i j : Nat) (hi : i < 10) (hj : j < 10) (hij : i ≠ j) :
    List.Disjoint (blockInputNames b1 st1 i) (blockInputNames b2 st2 j) := by
  intro nm h1 h2
  obtain ⟨p, _, hp⟩ := blockInputNames_mem b1 st1 i nm h1
  obtain ⟨q, _, hq⟩ := blockInputNames_mem b2 st2 j nm h2
  exact append_repr_ne p q i j hi hj hij (by rw [← hp, ← hq])

/-- Claim C8 counterexample: the block with parameter `x1` at
specification index `1` and the block with parameter `x` at index `11`
both introduce the input name `x11`, so the claimed disjointness fails
for distinct indices in general. -/
theorem claimC8_counterexample :
    blockInputNames blockX1 ["x1"] 1 = ["x11"] ∧
    blockInputNames blockX ["x"] 11 = ["x11"] ∧
    (1 : Nat) ≠ 11 ∧
    ¬ List.Disjoint (blockInputNames blockX1 ["x1"] 1)
        (blockInputNames blockX ["x"] 11) :=
  ⟨by decide, by decide, by decide,
   fun hd => hd (a := "x11") (by decide) (by decide)⟩

/-- Claim C8 witness: `claimC8_corrected` instantiated on the two
concrete blocks at indices `1` and `2`. -/
theorem claimC8_witness :
    List.Disjoint (blockInputNames blockX1 ["x1"] 1)
      (blockInputNames blockX ["x"] 2) :=
  claimC8_corrected blockX1 blockX ["x1"] ["x"] 1 2 (by decide) (by decide)
    (by decide)

/-- Helper for C10: executing any `Assign` updates sigma exactly at the
target name computed from the left-hand side, and when the right-hand
side is not a real API call the stored value is the evaluated right-hand
side. -/
theorem executeStmt_assign_target (factory : String → ExprList → Expr)
    (st : SEEState) (l rhs : Expr) :
    ∃ v, (executeStmt factory st (.assign l rhs)).sigma
        = setSigma st.sigma (targetName l) v ∧
      (isAPICallRHS rhs = false →
        v = (evaluateExpr st.sigma rhs st.counter).1) := by
  cases rhs with
  | funcCall n args =>
      by_cases hA : isAPI n = true
      · refine ⟨factory n (evaluateArgsE st.sigma args st.counter).1, ?_, ?_⟩
        · simp [executeStmt, hA]
        · intro hf
          rw [isAPICallRHS] at hf
          rw [hf] at hA
          cases hA
      · have hA' : isAPI n = false := by
          cases h : isAPI n
          · rfl
          · exact absurd h hA
        refine ⟨(evaluateExpr st.sigma (.funcCall n args) st.counter).1,
          ?_, fun _ => rfl⟩
        simp [executeStmt, hA']
  | input => exact ⟨_, rfl, fun _ => rfl⟩
  | map kvs => exact ⟨_, rfl, fun _ => rfl⟩
  | num k => exact ⟨_, rfl, fun _ => rfl⟩
  | set es => exact ⟨_, rfl, fun _ => rfl⟩
  | str s => exact ⟨_, rfl, fun _ => rfl⟩
  | symVar k => exact ⟨_, rfl, fun _ => rfl⟩
  | tuple es => exact ⟨_, rfl, fun _ => rfl⟩
  | var x => exact ⟨_, rfl, fun _ => rfl⟩

/-- Claim C10, confirmed: an `Assign` whose left-hand side is a tuple
binds the evaluated right-hand side to the single sigma name
`"_tuple_result"` (and any other non-variable left-hand side binds
`"_unknown"`); the individual tuple components are not bound — every
other sigma entry is untouched. -/
theorem claimC10_confirmed :
    (∀ es, targetName (.tuple es) = "_tuple_result") ∧
    (∀ (factory : String → ExprList → Expr) (st : SEEState)
      (es : ExprList) (rhs : Expr), ∃ v,
      (executeStmt factory st (.assign (.tuple es) rhs)).sigma
          = setSigma st.sigma "_tuple_result" v ∧
      (isAPICallRHS rhs = false →
        v = (evaluateExpr st.sigma rhs st.counter).1)) ∧
    (∀ (factory : String → ExprList → Expr) (st : SEEState)
      (es : ExprList) (rhs : Expr) (nm : String), nm ≠ "_tuple_result" →
      lookupSigma (executeStmt factory st (.assign (.tuple es) rhs)).sigma nm
        = lookupSigma st.sigma nm) ∧
    (∀ lhs, isVarE lhs = false → isTupleE lhs = false →
      targetName lhs = "_unknown") ∧
    (∀ (factory : String → ExprList → Expr) (st : SEEState)
      (lhs rhs : Expr), isVarE lhs = false → isTupleE lhs = false →
      ∃ v, (executeStmt factory st (.assign lhs rhs)).sigma
          = setSigma st.sigma "_unknown" v) := by
  refine ⟨fun _ => rfl, ?_, ?_, ?_, ?_⟩
  · intro factory st es rhs
    exact executeStmt_assign_target factory st (.tuple es) rhs
  · intro factory st es rhs nm hnm
    obtain ⟨v, hv, _⟩ :=
      executeStmt_assign_target factory st (.tuple es) rhs
    rw [hv, lookupSigma_setSigma]
    rw [if_neg (fun hc => hnm hc.symm)]
  · intro lhs h1 h2
    cases lhs with
    | var x => simp [isVarE] at h1
    | tuple es => simp [isTupleE] at h2
    | input => rfl
    | funcCall n args => rfl
    | map kvs => rfl
    | num k => rfl
    | set es => rfl
    | str s => rfl
    | symVar k => rfl
  · intro factory st lhs rhs h1 h2
    obtain ⟨v, hv, _⟩ := executeStmt_assign_target factory st lhs rhs
    refine ⟨v, ?_⟩
    rw [hv]
    congr 1
    cases lhs with
    | var x => simp [isVarE] at h1
    | tuple es => simp [isTupleE] at h2
    | input => rfl
    | funcCall n args => rfl
    | map kvs => rfl
    | num k => rfl
    | set es => rfl
    | str s => rfl
    | symVar k => rfl

/-- Claim C10 witness: `claimC10_confirmed` instantiated on the tuple
assignment `(a) := 7`, showing the component `a` keeps its (absent)
binding. -/
theorem claimC10_witness :
    lookupSigma (executeStmt factory0 st0
        (.assign (.tuple (.cons (.var "a") .nil)) (.num 7))).sigma "a"
      = lookupSigma st0.sigma "a" :=
  claimC10_confirmed.2.2.1 factory0 st0 (.cons (.var "a") .nil) (.num 7) "a"
    (by decide)
